import Mathlib

/-!
# Verification of the ts-unused-cleaner detection engine

The repository ships the canonical example corpus (a small React app), its
documentation and a demo script; the detection engine itself (a Rust binary)
is not part of the source tree.  The engine is therefore modelled here from
the design specification: declaration extraction, reference scanning, usage
graph construction, classification and aggregation, over file text given as
lists of characters.  The example corpus is embedded verbatim so that the
model can be evaluated on it.
-/

/-- Modelled from the spec: the tracked declaration kinds
`Component, Type, Interface, Function, Variable, Enum` (§3). -/
inductive DeclKind where
  | component
  | typeAlias
  | iface
  | func
  | var
  | enum
deriving DecidableEq

/-- Modelled from the spec: the configuration surface consumed by the core —
per-category detection toggles and the entry-point file list (§6).  The code
that loads this record from disk is not in the source tree. -/
structure Config where
  components : Bool
  types : Bool
  interfaces : Bool
  functions : Bool
  vars : Bool
  enums : Bool
  entryPoints : List (List Char)
deriving DecidableEq

/-- Modelled from the spec: a Declaration
`{ name, kind, definingFile, line, isExported }` (§3); the `id` of the spec
is the `(file, name, kind)` triple itself. -/
structure Declaration where
  name : List Char
  kind : DeclKind
  file : List Char
  line : Nat
  exported : Bool
deriving DecidableEq

/-- Modelled from the spec: an Occurrence `{ identifierText, file, line,
column }` (§3).  The extra flag `selfDefault` records that the token is the
re-exported name of a bare `export default Name;` statement, which the
Classifier's self-reference rule (§2, §4.4) must be able to recognise. -/
structure Occurrence where
  text : List Char
  file : List Char
  line : Nat
  col : Nat
  selfDefault : Bool
deriving DecidableEq

/-- Modelled from the spec: a source file of the scanned corpus (§3). -/
structure SourceFile where
  path : List Char
  text : List Char
deriving DecidableEq

/-- Modelled from the spec: a ClassificationResult
`{ declarationId, used }` (§3). -/
structure ClassificationResult where
  decl : Declaration
  used : Bool
deriving DecidableEq

/-- Per-category `{total, used, unused}` counters of the Report (§3). -/
structure CatCount where
  total : Nat
  used : Nat
  unused : Nat
deriving DecidableEq

/-- An entry of the Report's ordered unused list: `(file, line, name, kind)`
(§3). -/
structure UnusedEntry where
  file : List Char
  line : Nat
  name : List Char
  kind : DeclKind
deriving DecidableEq

/-- Modelled from the spec: the Report — per-category counts plus the
ordered unused list (§3, §4.5). -/
structure Report where
  components : CatCount
  types : CatCount
  interfaces : CatCount
  functions : CatCount
  vars : CatCount
  enums : CatCount
  unusedList : List UnusedEntry
deriving DecidableEq

/-! ## Character-level helpers -/

def isIdentStart (c : Char) : Bool := c.isAlpha || c == '_'

def isIdentChar (c : Char) : Bool := c.isAlpha || c.isDigit || c == '_'

/-- Strip the pattern `p` from the front of `s`, if present. -/
def dropPre : List Char → List Char → Option (List Char)
  | [], s => some s
  | _ :: _, [] => none
  | p :: ps, c :: cs => if c = p then dropPre ps cs else none

def takeIdent (s : List Char) : List Char := s.takeWhile isIdentChar

def trimBlank (s : List Char) : List Char := s.dropWhile (fun c => c == ' ' || c == '\t')

def isCap (n : List Char) : Bool :=
  match n with
  | [] => false
  | c :: _ => c.isUpper

/-- Does the character list contain the two-character arrow `=>`? -/
def hasArrow : List Char → Bool
  | [] => false
  | [_] => false
  | a :: b :: rest => (a == '=' && b == '>') || hasArrow (b :: rest)

/-- Split a file text into its lines (separator `\n`). -/
def splitLinesGo (cur : List Char) : List Char → List (List Char)
  | [] => [cur.reverse]
  | c :: cs => if c == '\n' then cur.reverse :: splitLinesGo [] cs else splitLinesGo (c :: cur) cs

def fileLines (text : List Char) : List (List Char) := splitLinesGo [] text

/-! ## Declaration Extractor (§4.1)

Per line, category-specific structural heuristics: `type`/`interface`/`enum`
keyword declarations, `function` declarations, and `const`/`let` bindings
whose initializer is classified as function-like, a wrapped call, or other.
Only lines starting at column zero are top level.  The tie-break precedence
Component > Function > Variable of §4.1 is applied over the enabled
categories. -/

/-- The syntactic shape a top-level line matches, before category gating. -/
inductive LineShape where
  | typeDecl (name : List Char)
  | ifaceDecl (name : List Char)
  | enumDecl (name : List Char)
  | funcDecl (name : List Char)
  | bindFn (name : List Char)
  | bindCall (name : List Char)
  | bindOther (name : List Char)
deriving DecidableEq

/-- Classify the text after a `const`/`let` binding's name: function-like
initializer (arrow, `function`, or a parenthesised parameter list), a
wrapped call such as `memo(...)`, or any other initializer. -/
def bindShape (name rest : List Char) : LineShape :=
  let init := trimBlank ((rest.dropWhile (fun c => !(c == '='))).drop 1)
  if hasArrow rest || (dropPre "function".data init).isSome ||
      (dropPre "async ".data init).isSome || init.head? == some '(' then
    .bindFn name
  else if (match init.head? with | some c => isIdentStart c | none => false) &&
      (init.dropWhile (fun c => isIdentChar c || c == '.')).head? == some '(' then
    .bindCall name
  else
    .bindOther name

/-- Modelled from the spec: the per-line heuristic pattern match of the
Declaration Extractor (§4.1), whose real implementation is not in the source
tree.  Returns the matched shape and whether the line is `export`-prefixed.
Indented lines are not top level and never declare anything. -/
def shapeOfLine (line : List Char) : Option (LineShape × Bool) :=
  match line with
  | [] => none
  | c :: _ =>
    if c == ' ' || c == '\t' then none
    else
      let exported := (dropPre "export ".data line).isSome
      let rest1 := match dropPre "export ".data line with
        | some r => r
        | none => line
      let rest2 := match dropPre "default ".data rest1 with
        | some r => r
        | none => rest1
      match dropPre "type ".data rest2 with
      | some r =>
        let n := takeIdent r
        if n.isEmpty then none else some (.typeDecl n, exported)
      | none =>
      match dropPre "interface ".data rest2 with
      | some r =>
        let n := takeIdent r
        if n.isEmpty then none else some (.ifaceDecl n, exported)
      | none =>
      match dropPre "enum ".data rest2 with
      | some r =>
        let n := takeIdent r
        if n.isEmpty then none else some (.enumDecl n, exported)
      | none =>
      let rest3 := match dropPre "async ".data rest2 with
        | some r => r
        | none => rest2
      match dropPre "function ".data rest3 with
      | some r =>
        let n := takeIdent r
        if n.isEmpty then none else some (.funcDecl n, exported)
      | none =>
      match dropPre "const ".data rest2 <|> dropPre "let ".data rest2 with
      | some r =>
        let n := takeIdent r
        if n.isEmpty then none else some (bindShape n (r.drop n.length), exported)
      | none => none

/-- Modelled from the spec: category gating and the documented tie-break
precedence Component > Function > Variable (§4.1, §6): each shape yields a
`(name, kind)` pair only when its category's detection toggle is enabled,
a capitalized function-like binding being a Component, a `const`/`let`
binding not claimed by an enabled Component/Function rule a Variable. -/
def declFromShape (cfg : Config) (s : LineShape) : Option (List Char × DeclKind) :=
  match s with
  | .typeDecl n => if cfg.types then some (n, .typeAlias) else none
  | .ifaceDecl n => if cfg.interfaces then some (n, .iface) else none
  | .enumDecl n => if cfg.enums then some (n, .enum) else none
  | .funcDecl n =>
    if isCap n && cfg.components then some (n, .component)
    else if cfg.functions then some (n, .func)
    else none
  | .bindFn n =>
    if isCap n && cfg.components then some (n, .component)
    else if cfg.functions then some (n, .func)
    else if cfg.vars then some (n, .var)
    else none
  | .bindCall n =>
    if isCap n && cfg.components then some (n, .component)
    else if cfg.vars then some (n, .var)
    else none
  | .bindOther n => if cfg.vars then some (n, .var) else none

/-- The declarations contributed by one line of a file. -/
def lineDecls (cfg : Config) (path : List Char) (i : Nat) (line : List Char) : List Declaration :=
  match shapeOfLine line with
  | none => []
  | some (s, ex) =>
    match declFromShape cfg s with
    | none => []
    | some (n, k) => [⟨n, k, path, i, ex⟩]

/-- Extract the declarations of the given lines, the first line carrying
number `i`. -/
def extractFrom (cfg : Config) (path : List Char) : Nat → List (List Char) → List Declaration
  | _, [] => []
  | i, ln :: rest => lineDecls cfg path i ln ++ extractFrom cfg path (i + 1) rest

/-- The arena key of §9: Declarations are indexed per `(name, kind)` within
a file. -/
def dKey (d : Declaration) : List Char × DeclKind := (d.name, d.kind)

/-- Keep the first Declaration for each `(name, kind)` key, dropping later
duplicates (the arena of §9 is indexed by `(file, name, kind)`). -/
def dedupGo (seen : List (List Char × DeclKind)) : List Declaration → List Declaration
  | [] => []
  | d :: ds =>
    if dKey d ∈ seen then dedupGo seen ds
    else d :: dedupGo (dKey d :: seen) ds

/-- Modelled from the spec: the full Declaration Extractor pass over one
source file (§4.1, §9). -/
def fileDecls (cfg : Config) (f : SourceFile) : List Declaration :=
  dedupGo [] (extractFrom cfg f.path 1 (fileLines f.text))

/-! ## Reference Scanner (§4.2)

A character-level state machine: identifier-shaped tokens (letter/digit/
underscore runs starting with a letter or underscore) are recorded with
position; tokens inside string literals (single, double or backtick quoted,
with backslash escapes) and inside `//` and `/* ... */` comments are not.
String/comment state is threaded across lines, line comments end at the end
of their line. -/

/-- The scanner's lexical state. -/
inductive ScanMode where
  | norm
  | slash
  | num
  | lineComment
  | blockComment
  | blockStar
  | strMode (q : Char)
  | strEsc (q : Char)
deriving DecidableEq

/-- If the line is a bare default re-export `export default Name;` (or
without the semicolon), return `Name`. -/
def defaultExportNameOf (line : List Char) : Option (List Char) :=
  match dropPre "export default ".data line with
  | none => none
  | some r =>
    let n := takeIdent r
    if n.isEmpty then none
    else
      let rest := trimBlank (r.drop n.length)
      if rest == [] || rest == [';'] then some n else none

/-- Emit the pending token, if any, onto the (reversed) output. -/
def flushTok (path : List Char) (lineNo : Nat) (selfName : Option (List Char))
    (st : Nat) (acc : List Char) (out : List Occurrence) : List Occurrence :=
  match acc with
  | [] => out
  | _ :: _ =>
    let t := acc.reverse
    ⟨t, path, lineNo, st, selfName == some t⟩ :: out

/-- Is this character a string-literal quote (`'`, `"` or a backtick)? -/
def isQuote (c : Char) : Bool := c == '\x27' || c == '"' || c.toNat == 96

/-- Modelled from the spec: one line of the Reference Scanner's token state
machine (§4.2); the real scanner is not in the source tree.  Arguments:
remaining characters, current column, lexical mode, pending (reversed)
token with its start column, and the (reversed) tokens already emitted.
Returns the emitted tokens and the mode carried to the next line. -/
def scanLineGo (path : List Char) (lineNo : Nat) (selfName : Option (List Char)) :
    List Char → Nat → ScanMode → List Char → Nat → List Occurrence →
    List Occurrence × ScanMode
  | [], _, mode, acc, st, out =>
    let out := flushTok path lineNo selfName st acc out
    let mode' := match mode with
      | .lineComment => ScanMode.norm
      | .slash => ScanMode.norm
      | .num => ScanMode.norm
      | .strEsc q => ScanMode.strMode q
      | m => m
    (out, mode')
  | c :: cs, col, mode, acc, st, out =>
    match mode with
    | .norm =>
      if isIdentChar c then
        match acc with
        | [] =>
          if isIdentStart c then
            scanLineGo path lineNo selfName cs (col + 1) .norm [c] col out
          else
            scanLineGo path lineNo selfName cs (col + 1) .num [] 0 out
        | _ :: _ => scanLineGo path lineNo selfName cs (col + 1) .norm (c :: acc) st out
      else
        let out := flushTok path lineNo selfName st acc out
        if c == '/' then scanLineGo path lineNo selfName cs (col + 1) .slash [] 0 out
        else if isQuote c then scanLineGo path lineNo selfName cs (col + 1) (.strMode c) [] 0 out
        else scanLineGo path lineNo selfName cs (col + 1) .norm [] 0 out
    | .slash =>
      if c == '/' then scanLineGo path lineNo selfName cs (col + 1) .lineComment [] 0 out
      else if c == '*' then scanLineGo path lineNo selfName cs (col + 1) .blockComment [] 0 out
      else if isIdentStart c then scanLineGo path lineNo selfName cs (col + 1) .norm [c] col out
      else if c.isDigit then scanLineGo path lineNo selfName cs (col + 1) .num [] 0 out
      else if isQuote c then scanLineGo path lineNo selfName cs (col + 1) (.strMode c) [] 0 out
      else scanLineGo path lineNo selfName cs (col + 1) .norm [] 0 out
    | .num =>
      if isIdentChar c then scanLineGo path lineNo selfName cs (col + 1) .num [] 0 out
      else if c == '/' then scanLineGo path lineNo selfName cs (col + 1) .slash [] 0 out
      else if isQuote c then scanLineGo path lineNo selfName cs (col + 1) (.strMode c) [] 0 out
      else scanLineGo path lineNo selfName cs (col + 1) .norm [] 0 out
    | .lineComment => scanLineGo path lineNo selfName cs (col + 1) .lineComment [] 0 out
    | .blockComment =>
      if c == '*' then scanLineGo path lineNo selfName cs (col + 1) .blockStar [] 0 out
      else scanLineGo path lineNo selfName cs (col + 1) .blockComment [] 0 out
    | .blockStar =>
      if c == '/' then scanLineGo path lineNo selfName cs (col + 1) .norm [] 0 out
      else if c == '*' then scanLineGo path lineNo selfName cs (col + 1) .blockStar [] 0 out
      else scanLineGo path lineNo selfName cs (col + 1) .blockComment [] 0 out
    | .strMode q =>
      if c == q then scanLineGo path lineNo selfName cs (col + 1) .norm [] 0 out
      else if c == '\\' then scanLineGo path lineNo selfName cs (col + 1) (.strEsc q) [] 0 out
      else scanLineGo path lineNo selfName cs (col + 1) (.strMode q) [] 0 out
    | .strEsc q => scanLineGo path lineNo selfName cs (col + 1) (.strMode q) [] 0 out

/-- Scan a file's lines, threading the lexical mode across lines. -/
def scanLinesGo (path : List Char) : Nat → ScanMode → List (List Char) → List Occurrence
  | _, _, [] => []
  | i, m, ln :: rest =>
    let r := scanLineGo path i (defaultExportNameOf ln) ln 1 m [] 0 []
    r.1.reverse ++ scanLinesGo path (i + 1) r.2 rest

/-- Modelled from the spec: every identifier-shaped token of a file, with
position, before the definition-site filter (§4.2). -/
def rawOccs (f : SourceFile) : List Occurrence :=
  scanLinesGo f.path 1 .norm (fileLines f.text)

/-- Is the token the definition site of one of the file's Declarations
(same file, same line, same name)? -/
def isDefSite (decls : List Declaration) (o : Occurrence) : Bool :=
  decls.any fun d => d.file == o.file && d.line == o.line && d.name == o.text

/-- Modelled from the spec: the Occurrences the Reference Scanner records
for one file — every identifier-shaped token outside string/comment
literals, skipping Declarations' own definition-site tokens (§4.2). -/
def fileOccs (cfg : Config) (f : SourceFile) : List Occurrence :=
  (rawOccs f).filter fun o => !(isDefSite (fileDecls cfg f) o)

/-! ## Usage Graph Builder and Classifier (§4.3, §4.4) -/

/-- Modelled from the spec: the merged Declaration arena across the whole
Source Set, each file's partial results committed in list order (§4.3, §5). -/
def allDecls (cfg : Config) (files : List SourceFile) : List Declaration :=
  files.flatMap (fileDecls cfg)

/-- Modelled from the spec: the merged Occurrence list across the whole
Source Set (§4.3, §5). -/
def allOccs (cfg : Config) (files : List SourceFile) : List Occurrence :=
  files.flatMap (fileOccs cfg)

/-- Modelled from the spec: does this Occurrence qualify as usage of the
Declaration (§3, §4.3, §4.4)?  The identifier text must equal the
Declaration's name, the Occurrence must not be on the Declaration's own
definition line, and — the Classifier's self-reference rule (§2), forced by
§8 scenario 1 and the example documentation's expected-unused list — a bare
`export default Name;` of the Declaration's own name in its own defining
file is a self-reference, not usage. -/
def qualifies (d : Declaration) (o : Occurrence) : Bool :=
  o.text == d.name && !(o.file == d.file && o.line == d.line) &&
    !(o.file == d.file && o.selfDefault)

/-- Modelled from the spec: the Classifier's transition rule (§4.4) —
`Used` iff the Usage Graph holds a qualifying Occurrence or the defining
file is a configured entry point. -/
def usedFlag (cfg : Config) (occs : List Occurrence) (d : Declaration) : Bool :=
  occs.any (qualifies d) || decide (d.file ∈ cfg.entryPoints)

/-- Modelled from the spec: the Classifier pass over the merged graph,
producing one terminal ClassificationResult per Declaration (§4.4). -/
def classifyAll (cfg : Config) (files : List SourceFile) : List ClassificationResult :=
  (allDecls cfg files).map fun d => ⟨d, usedFlag cfg (allOccs cfg files) d⟩

/-! ## Aggregator (§4.5) -/

def kindIdx : DeclKind → Nat
  | .component => 0
  | .typeAlias => 1
  | .iface => 2
  | .func => 3
  | .var => 4
  | .enum => 5

/-- Lexicographic order on character lists (by code point). -/
def lexLe : List Char → List Char → Bool
  | [], _ => true
  | _ :: _, [] => false
  | a :: as, b :: bs => if a = b then lexLe as bs else decide (a < b)

/-- Compare two character lists, deferring to `t` when they are equal. -/
def lexThen (x y : List Char) (t : Bool) : Bool :=
  if x = y then t else lexLe x y

/-- Compare two numbers, deferring to `t` when they are equal. -/
def natThen (x y : Nat) (t : Bool) : Bool :=
  if x = y then t else x ≤ y

/-- The Aggregator's total order on unused-list entries: by file path, then
line, then name, then kind. -/
def entryLe (a b : UnusedEntry) : Bool :=
  lexThen a.file b.file (natThen a.line b.line
    (lexThen a.name b.name (kindIdx a.kind ≤ kindIdx b.kind)))

def entryRel (a b : UnusedEntry) : Prop := entryLe a b = true

instance : DecidableRel entryRel := fun a b => inferInstanceAs (Decidable (entryLe a b = true))

def entryOf (d : Declaration) : UnusedEntry := ⟨d.file, d.line, d.name, d.kind⟩

def unusedEntries (rs : List ClassificationResult) : List UnusedEntry :=
  rs.filterMap fun r => if r.used then none else some (entryOf r.decl)

def countsFor (k : DeclKind) (rs : List ClassificationResult) : CatCount :=
  ⟨rs.countP (fun r => r.decl.kind == k),
   rs.countP (fun r => r.decl.kind == k && r.used),
   rs.countP (fun r => r.decl.kind == k && !r.used)⟩

/-- Modelled from the spec: the Aggregator — per-category counts and the
unused list ordered by file path then line (§4.5). -/
def buildReport (rs : List ClassificationResult) : Report :=
  ⟨countsFor .component rs, countsFor .typeAlias rs, countsFor .iface rs,
   countsFor .func rs, countsFor .var rs, countsFor .enum rs,
   List.insertionSort entryRel (unusedEntries rs)⟩

/-- Modelled from the spec: a full engine run over an already-read Source
Set (§2): extraction and scanning per file, merge, classification,
aggregation. -/
def runEngine (cfg : Config) (files : List SourceFile) : Report :=
  buildReport (classifyAll cfg files)

/-! ## Per-file read failures (§7) -/

/-- The files that were read successfully (`some` content). -/
def readOk (inputs : List (List Char × Option (List Char))) : List SourceFile :=
  inputs.filterMap fun p => p.2.map (fun t => ⟨p.1, t⟩)

/-- One warning per failed read, in corpus order. -/
def warningsOf (inputs : List (List Char × Option (List Char))) : List (List Char) :=
  inputs.filterMap fun p => if p.2.isNone then some p.1 else none

/-- Modelled from the spec: the run over a corpus whose per-file reads may
fail (§7): a failed file is skipped with a recorded warning, never retried,
and the run continues over the remaining corpus. -/
def runFull (cfg : Config) (inputs : List (List Char × Option (List Char))) :
    Report × List (List Char) :=
  (runEngine cfg (readOk inputs), warningsOf inputs)
def utilsApiText : String :=
  "import \x7b User, Post, Status \x7d from \x27../types/api\x27;\n\nexport async function fetchUsers(): Promise<User[]> \x7b\n  const response = await fetch(\x27/api/users\x27);\n  return response.json();\n\x7d\n\nexport async function fetchPosts(): Promise<Post[]> \x7b\n  const response = await fetch(\x27/api/posts\x27);\n  return response.json();\n\x7d\n\nexport function formatDate(dateString: string): string \x7b\n  return new Date(dateString).toLocaleDateString();\n\x7d\n\nexport function unusedHelper(value: string): string \x7b\n  return value.toUpperCase();\n\x7d\n\nexport const USED_CONSTANT = \x27This constant is used\x27;\nexport const UNUSED_CONSTANT = \x27This constant is never used\x27;\n\nexport function calculateTotal(items: number[]): number \x7b\n  return items.reduce((sum, item) => sum + item, 0);\n\x7d"

def appText : String :=
  "import React from \x27react\x27;\nimport \x7b Home \x7d from \x27./pages/Home\x27;\nimport \x7b fetchUsers, USED_CONSTANT \x7d from \x27./utils/api\x27;\nimport \x7b Status \x7d from \x27./types/api\x27;\n\nfunction App() \x7b\n  const [status, setStatus] = React.useState<Status>(Status.PENDING);\n\n  React.useEffect(() => \x7b\n    setStatus(Status.LOADING);\n    fetchUsers()\n      .then(() => setStatus(Status.SUCCESS))\n      .catch(() => setStatus(Status.ERROR));\n  \x7d, []);\n\n  console.log(USED_CONSTANT);\n\n  return (\n    <div className=\"App\">\n      <Home />\n    </div>\n  );\n\x7d\n\nexport default App;"

def typesApiText : String :=
  "export interface User \x7b\n  id: number;\n  name: string;\n  email: string;\n  avatar?: string;\n\x7d\n\nexport interface ApiResponse<T> \x7b\n  data: T;\n  status: number;\n  message: string;\n\x7d\n\nexport type UserListResponse = ApiResponse<User[]>;\n\nexport interface Post \x7b\n  id: number;\n  title: string;\n  content: string;\n  authorId: number;\n  createdAt: string;\n\x7d\n\nexport type UnusedDataType = \x7b\n  id: string;\n  value: number;\n  metadata: Record<string, unknown>;\n\x7d;\n\nexport enum Status \x7b\n  PENDING = \x27pending\x27,\n  LOADING = \x27loading\x27,\n  SUCCESS = \x27success\x27,\n  ERROR = \x27error\x27\n\x7d\n\nexport enum UnusedStatus \x7b\n  DRAFT = \x27draft\x27,\n  PUBLISHED = \x27published\x27,\n  ARCHIVED = \x27archived\x27\n\x7d"

def homeText : String :=
  "import React from \x27react\x27;\nimport \x7b Button \x7d from \x27../components/button\x27;\nimport \x7b Card \x7d from \x27../components/card\x27;\n\nexport const Home: React.FC = () => \x7b\n  const handleClick = () => \x7b\n    console.log(\x27Button clicked!\x27);\n  \x7d;\n\n  return (\n    <div className=\"home\">\n      <h1>Welcome to Our App</h1>\n      <Card\n        title=\"Getting Started\"\n        content=\"This is a sample React application to demonstrate unused component detection.\"\n        footer=\x7b\n          <Button onClick=\x7bhandleClick\x7d variant=\"primary\">\n            Get Started\n          </Button>\n        \x7d\n      />\n    </div>\n  );\n\x7d;\n\nexport default Home;"

def cardText : String :=
  "import React from \x27react\x27;\n\ninterface CardProps \x7b\n  title: string;\n  content: string;\n  footer?: React.ReactNode;\n\x7d\n\nexport const Card: React.FC<CardProps> = (\x7b title, content, footer \x7d) => \x7b\n  return (\n    <div className=\"card\">\n      <div className=\"card-header\">\n        <h3>\x7btitle\x7d</h3>\n      </div>\n      <div className=\"card-body\">\n        <p>\x7bcontent\x7d</p>\n      </div>\n      \x7bfooter && (\n        <div className=\"card-footer\">\n          \x7bfooter\x7d\n        </div>\n      )\x7d\n    </div>\n  );\n\x7d;\n\nexport default Card;"

def spinnerText : String :=
  "import React from \x27react\x27;\n\ninterface SpinnerProps \x7b\n  size?: \x27small\x27 | \x27medium\x27 | \x27large\x27;\n  color?: string;\n\x7d\n\nexport function Spinner(\x7b size = \x27medium\x27, color = \x27#007bff\x27 \x7d: SpinnerProps) \x7b\n  const sizeClass = `spinner-$\x7bsize\x7d`;\n  \n  return (\n    <div \n      className=\x7b`spinner $\x7bsizeClass\x7d`\x7d\n      style=\x7b\x7b borderTopColor: color \x7d\x7d\n    />\n  );\n\x7d\n\nexport default Spinner;"

def unusedModalText : String :=
  "import React from \x27react\x27;\n\ninterface UnusedModalProps \x7b\n  isOpen: boolean;\n  onClose: () => void;\n  title: string;\n  children: React.ReactNode;\n\x7d\n\nexport const UnusedModal: React.FC<UnusedModalProps> = (\x7b \n  isOpen, \n  onClose, \n  title, \n  children \n\x7d) => \x7b\n  if (!isOpen) return null;\n\n  return (\n    <div className=\"modal-overlay\" onClick=\x7bonClose\x7d>\n      <div className=\"modal-content\" onClick=\x7be => e.stopPropagation()\x7d>\n        <div className=\"modal-header\">\n          <h2>\x7btitle\x7d</h2>\n          <button onClick=\x7bonClose\x7d>\u00d7</button>\n        </div>\n        <div className=\"modal-body\">\n          \x7bchildren\x7d\n        </div>\n      </div>\n    </div>\n  );\n\x7d;\n\nexport default UnusedModal;"

def utilsFile : SourceFile := ⟨"src/utils/api.ts".data, utilsApiText.data⟩

def appFile : SourceFile := ⟨"src/App.tsx".data, appText.data⟩

def typesFile : SourceFile := ⟨"src/types/api.ts".data, typesApiText.data⟩

def homeFile : SourceFile := ⟨"src/pages/Home.tsx".data, homeText.data⟩

def cardFile : SourceFile := ⟨"src/components/card.tsx".data, cardText.data⟩

def spinnerFile : SourceFile := ⟨"src/components/spinner.tsx".data, spinnerText.data⟩

def unusedModalFile : SourceFile := ⟨"src/components/unused-modal.tsx".data, unusedModalText.data⟩

/-- The canonical example corpus shipped with the repository: the React
example app's source files (paths as documented in the example README). -/
def corpusFiles : List SourceFile :=
  [utilsFile, appFile, typesFile, homeFile, cardFile, spinnerFile, unusedModalFile]

/-- The configuration with every detection category enabled (the `--all`
run documented for the example) and no entry points. -/
def allOn : Config := ⟨true, true, true, true, true, true, []⟩
/-- Which detection toggle gates each declaration kind (§6). -/
def enabledFor (cfg : Config) : DeclKind → Bool
  | .component => cfg.components
  | .typeAlias => cfg.types
  | .iface => cfg.interfaces
  | .func => cfg.functions
  | .var => cfg.vars
  | .enum => cfg.enums

/-- The Report's counter row for a declaration kind. -/
def reportRow (rep : Report) : DeclKind → CatCount
  | .component => rep.components
  | .typeAlias => rep.types
  | .iface => rep.interfaces
  | .func => rep.functions
  | .var => rep.vars
  | .enum => rep.enums

/-- The identifier texts the scanner records on line `n` of a file. -/
def lineTokens (f : SourceFile) (n : Nat) : List (List Char) :=
  ((rawOccs f).filter (fun o => o.line == n)).map (fun o => o.text)

/-- A bare named re-export statement `export { N };` (no new binding). -/
def reExportLine (n : List Char) : List Char :=
  "export \x7b ".data ++ n ++ " \x7d;".data

/-- Count the Declarations carrying a given name. -/
def nameCount (n : List Char) (ds : List Declaration) : Nat :=
  ds.countP (fun d => d.name == n)

/-- The configuration of §8 scenario 6: everything enabled except enum
detection, no entry points. -/
def noEnums : Config := ⟨true, true, true, true, true, false, []⟩

/-- The `Spinner` component Declaration the Extractor produces from
`spinner.tsx` line 8. -/
def spinnerDecl : Declaration :=
  ⟨"Spinner".data, .component, "src/components/spinner.tsx".data, 8, true⟩

/-- The `Spinner` identifier token of the `export default Spinner;`
statement on line 19 of `spinner.tsx`. -/
def spinnerOcc : Occurrence :=
  ⟨"Spinner".data, "src/components/spinner.tsx".data, 19, 16, true⟩

/-- The `USED_CONSTANT` Variable Declaration from `utils/api.ts` line 21. -/
def usedConstDecl : Declaration :=
  ⟨"USED_CONSTANT".data, .var, "src/utils/api.ts".data, 21, true⟩

/-- The `USED_CONSTANT` identifier token of the named import on line 3 of
`App.tsx`. -/
def usedConstOcc : Occurrence :=
  ⟨"USED_CONSTANT".data, "src/App.tsx".data, 3, 22, false⟩

/-- The `Post` interface Declaration from `types/api.ts` line 16. -/
def postDeclRaw : Declaration :=
  ⟨"Post".data, .iface, "src/types/api.ts".data, 16, true⟩

/-- The `Post` identifier token of the named import on line 1 of
`utils/api.ts`. -/
def postOcc : Occurrence :=
  ⟨"Post".data, "src/utils/api.ts".data, 1, 16, false⟩

/-- A two-file corpus used to instantiate the general theorems: `a.ts`
declares `Foo`, `b.ts` imports it. -/
def tinyA : SourceFile := ⟨"a.ts".data, "export const Foo = 1;\n".data⟩

def tinyB : SourceFile := ⟨"b.ts".data, "import \x7b Foo \x7d from \x27./a\x27;\n".data⟩

def tinyFiles : List SourceFile := [tinyA, tinyB]

/-- A two-file corpus where `Bar` is mentioned outside its own file only
inside a comment and a string literal. -/
def tinyC : SourceFile := ⟨"c.ts".data, "export const Bar = 2;\n".data⟩

def tinyD : SourceFile :=
  ⟨"d.ts".data, "// Bar appears in a comment\nconst q = \x27Bar\x27;\n".data⟩

def tinyCD : List SourceFile := [tinyC, tinyD]

/-- A snippet exercising line- and block-comment exclusion. -/
def commentSnip : SourceFile :=
  ⟨"c.ts".data, "// Button is rendered here\nconst x = 1;\n/* Button\n   Button */\n".data⟩

/-- The file-then-line ordering the spec requires of the unused list
(§4.5). -/
def fileLineRel (a b : UnusedEntry) : Prop :=
  if a.file = b.file then a.line ≤ b.line else lexLe a.file b.file = true

/-- The all-zero Report of a run that scanned no file. -/
def emptyReport : Report :=
  ⟨⟨0, 0, 0⟩, ⟨0, 0, 0⟩, ⟨0, 0, 0⟩, ⟨0, 0, 0⟩, ⟨0, 0, 0⟩, ⟨0, 0, 0⟩, []⟩
/-! ## General lemmas -/

theorem countP_split {α : Type} (p q : α → Bool) (l : List α) :
    l.countP p = l.countP (fun a => p a && q a) + l.countP (fun a => p a && !q a) := by
  induction l with
  | nil => simp
  | cons a l ih =>
    simp only [List.countP_cons, ih]
    cases hp : p a <;> cases hq : q a <;> simp <;> omega

theorem perm_any {α : Type} {l₁ l₂ : List α} (h : l₁.Perm l₂) (p : α → Bool) :
    l₁.any p = l₂.any p := by
  apply Bool.eq_iff_iff.mpr
  simp only [List.any_eq_true]
  exact ⟨fun ⟨x, hx, hp⟩ => ⟨x, h.mem_iff.mp hx, hp⟩,
    fun ⟨x, hx, hp⟩ => ⟨x, h.mem_iff.mpr hx, hp⟩⟩

theorem mem_lineDecls {cfg : Config} {p : List Char} {i : Nat} {ln : List Char}
    {d : Declaration} (h : d ∈ lineDecls cfg p i ln) : d.file = p ∧ d.line = i := by
  unfold lineDecls at h
  split at h
  · simp at h
  · split at h
    · simp at h
    · simp at h
      subst h
      exact ⟨rfl, rfl⟩

theorem lineDecls_intro {cfg : Config} {p : List Char} {i : Nat} {ln : List Char}
    {s : LineShape} {ex : Bool} {n : List Char} {k : DeclKind}
    (hs : shapeOfLine ln = some (s, ex)) (hd : declFromShape cfg s = some (n, k)) :
    (⟨n, k, p, i, ex⟩ : Declaration) ∈ lineDecls cfg p i ln := by
  simp [lineDecls, hs, hd]

theorem mem_extractFrom_of_get {cfg : Config} {p : List Char} :
    ∀ {i j : Nat} {ls : List (List Char)} {ln : List Char} {d : Declaration},
      ls[j]? = some ln → d ∈ lineDecls cfg p (i + j) ln → d ∈ extractFrom cfg p i ls := by
  intro i j ls
  induction ls generalizing i j with
  | nil => intro ln d h; simp at h
  | cons a ls ih =>
    intro ln d hg hd
    cases j with
    | zero =>
      simp only [List.getElem?_cons_zero, Option.some.injEq] at hg
      subst hg
      exact List.mem_append.mpr (Or.inl (by simpa using hd))
    | succ j =>
      apply List.mem_append.mpr
      right
      have h2 : i + (j + 1) = (i + 1) + j := by omega
      rw [h2] at hd
      exact ih (by simpa using hg) hd

theorem extractFrom_src {cfg : Config} {p : List Char} :
    ∀ {i : Nat} {ls : List (List Char)} {d : Declaration}, d ∈ extractFrom cfg p i ls →
      ∃ j ln, ls[j]? = some ln ∧ d ∈ lineDecls cfg p (i + j) ln := by
  intro i ls
  induction ls generalizing i with
  | nil => intro d h; simp [extractFrom] at h
  | cons a ls ih =>
    intro d h
    rw [extractFrom] at h
    rcases List.mem_append.mp h with h | h
    · exact ⟨0, a, by simp, by simpa using h⟩
    · obtain ⟨j, ln, hg, hd⟩ := ih h
      refine ⟨j + 1, ln, by simpa using hg, ?_⟩
      have h2 : i + 1 + j = i + (j + 1) := by omega
      rwa [h2] at hd

theorem mem_of_dedupGo :
    ∀ {seen : List (List Char × DeclKind)} {ds : List Declaration} {d : Declaration},
      d ∈ dedupGo seen ds → d ∈ ds := by
  intro seen ds
  induction ds generalizing seen with
  | nil => intro d h; simp [dedupGo] at h
  | cons a ds ih =>
    intro d h
    simp only [dedupGo] at h
    split at h
    · exact List.mem_cons_of_mem _ (ih h)
    · rcases List.mem_cons.mp h with rfl | h
      · exact List.mem_cons_self _ _
      · exact List.mem_cons_of_mem _ (ih h)

theorem dedupGo_key_complete :
    ∀ {seen : List (List Char × DeclKind)} {ds : List Declaration} {d : Declaration},
      d ∈ ds → dKey d ∉ seen → ∃ d', d' ∈ dedupGo seen ds ∧ dKey d' = dKey d := by
  intro seen ds
  induction ds generalizing seen with
  | nil => intro d h; simp at h
  | cons a ds ih =>
    intro d hd hs
    simp only [dedupGo]
    rcases List.mem_cons.mp hd with rfl | hd
    · rw [if_neg hs]
      exact ⟨d, List.mem_cons_self _ _, rfl⟩
    · split
      · exact ih hd hs
      · by_cases hke : dKey d = dKey a
        · exact ⟨a, List.mem_cons_self _ _, hke.symm⟩
        · obtain ⟨d', h1, h2⟩ := ih hd (fun hmem => (List.mem_cons.mp hmem).elim hke hs)
          exact ⟨d', List.mem_cons_of_mem _ h1, h2⟩

theorem dedupGo_fresh :
    ∀ {seen : List (List Char × DeclKind)} {ds : List Declaration} {d : Declaration},
      d ∈ dedupGo seen ds → dKey d ∉ seen := by
  intro seen ds
  induction ds generalizing seen with
  | nil => intro d h; simp [dedupGo] at h
  | cons a ds ih =>
    intro d h
    simp only [dedupGo] at h
    split at h
    · exact ih h
    · rcases List.mem_cons.mp h with rfl | h
      · assumption
      · have := ih h
        intro hmem
        exact this (List.mem_cons_of_mem _ hmem)

theorem dedupGo_pairwise :
    ∀ {seen : List (List Char × DeclKind)} {ds : List Declaration},
      (dedupGo seen ds).Pairwise (fun a b => dKey a ≠ dKey b) := by
  intro seen ds
  induction ds generalizing seen with
  | nil => simp [dedupGo]
  | cons a ds ih =>
    simp only [dedupGo]
    split
    · exact ih
    · refine List.Pairwise.cons ?_ ih
      intro b hb
      have := dedupGo_fresh hb
      intro heq
      exact this (heq ▸ List.mem_cons_self _ _)

theorem declFromShape_enabled {cfg : Config} {s : LineShape} {n : List Char} {k : DeclKind}
    (h : declFromShape cfg s = some (n, k)) : enabledFor cfg k = true := by
  cases s <;> simp only [declFromShape] at h <;> (repeat' split at h) <;> cases h <;>
    simp_all [enabledFor]
theorem lexLe_total : ∀ (a b : List Char), lexLe a b = true ∨ lexLe b a = true := by
  intro a
  induction a with
  | nil => intro b; exact Or.inl rfl
  | cons x xs ih =>
    intro b
    cases b with
    | nil => exact Or.inr rfl
    | cons y ys =>
      by_cases h : x = y
      · subst h
        simpa [lexLe] using ih ys
      · rcases lt_or_gt_of_ne h with h1 | h1
        · left; simp [lexLe, h, h1]
        · right; simp [lexLe, Ne.symm h, h1]

theorem lexLe_trans : ∀ {a b c : List Char},
    lexLe a b = true → lexLe b c = true → lexLe a c = true := by
  intro a
  induction a with
  | nil => intro b c _ _; rfl
  | cons x xs ih =>
    intro b c hab hbc
    cases b with
    | nil => simp [lexLe] at hab
    | cons y ys =>
      cases c with
      | nil => simp [lexLe] at hbc
      | cons z zs =>
        simp only [lexLe] at hab hbc ⊢
        by_cases hxy : x = y
        · subst hxy
          rw [if_pos rfl] at hab
          by_cases hyz : x = z
          · subst hyz
            rw [if_pos rfl] at hbc
            rw [if_pos rfl]
            exact ih hab hbc
          · rw [if_neg hyz] at hbc
            rw [if_neg hyz]
            exact hbc
        · rw [if_neg hxy] at hab
          have hxy' : x < y := of_decide_eq_true hab
          by_cases hyz : y = z
          · subst hyz
            rw [if_neg hxy]
            exact decide_eq_true hxy'
          · rw [if_neg hyz] at hbc
            have hyz' : y < z := of_decide_eq_true hbc
            have hxz : x < z := lt_trans hxy' hyz'
            rw [if_neg (ne_of_lt hxz)]
            exact decide_eq_true hxz

theorem lexLe_antisymm : ∀ {a b : List Char},
    lexLe a b = true → lexLe b a = true → a = b := by
  intro a
  induction a with
  | nil =>
    intro b hab hba
    cases b with
    | nil => rfl
    | cons y ys => simp [lexLe] at hba
  | cons x xs ih =>
    intro b hab hba
    cases b with
    | nil => simp [lexLe] at hab
    | cons y ys =>
      simp only [lexLe] at hab hba
      by_cases h : x = y
      · subst h
        rw [if_pos rfl] at hab hba
        rw [ih hab hba]
      · rw [if_neg h] at hab
        rw [if_neg (Ne.symm h)] at hba
        exact absurd (of_decide_eq_true hba) (not_lt_of_gt (of_decide_eq_true hab))

theorem kindIdx_inj : ∀ {k k' : DeclKind}, kindIdx k = kindIdx k' → k = k' := by
  intro k k'
  cases k <;> cases k' <;> simp [kindIdx]

theorem lexThen_total (x y : List Char) {t₁ t₂ : Bool} (h : t₁ = true ∨ t₂ = true) :
    lexThen x y t₁ = true ∨ lexThen y x t₂ = true := by
  unfold lexThen
  by_cases hxy : x = y
  · rw [if_pos hxy, if_pos hxy.symm]
    exact h
  · rw [if_neg hxy, if_neg (Ne.symm hxy)]
    exact lexLe_total x y

theorem natThen_total (x y : Nat) {t₁ t₂ : Bool} (h : t₁ = true ∨ t₂ = true) :
    natThen x y t₁ = true ∨ natThen y x t₂ = true := by
  unfold natThen
  by_cases hxy : x = y
  · rw [if_pos hxy, if_pos hxy.symm]
    exact h
  · rw [if_neg hxy, if_neg (Ne.symm hxy)]
    simp only [decide_eq_true_eq]
    omega

theorem lexThen_trans {x y z : List Char} {t₁ t₂ t₃ : Bool}
    (h1 : lexThen x y t₁ = true) (h2 : lexThen y z t₂ = true)
    (h3 : t₁ = true → t₂ = true → t₃ = true) : lexThen x z t₃ = true := by
  unfold lexThen at h1 h2 ⊢
  by_cases hxy : x = y
  · rw [if_pos hxy] at h1
    by_cases hyz : y = z
    · rw [if_pos hyz] at h2
      rw [if_pos (hxy.trans hyz)]
      exact h3 h1 h2
    · rw [if_neg hyz] at h2
      rw [if_neg (hxy ▸ hyz), hxy]
      exact h2
  · rw [if_neg hxy] at h1
    by_cases hyz : y = z
    · rw [if_neg (fun h => hxy (h.trans hyz.symm)), ← hyz]
      exact h1
    · rw [if_neg hyz] at h2
      by_cases hxz : x = z
      · exact absurd (lexLe_antisymm h2 (hxz ▸ h1)) hyz
      · rw [if_neg hxz]
        exact lexLe_trans h1 h2

theorem natThen_trans {x y z : Nat} {t₁ t₂ t₃ : Bool}
    (h1 : natThen x y t₁ = true) (h2 : natThen y z t₂ = true)
    (h3 : t₁ = true → t₂ = true → t₃ = true) : natThen x z t₃ = true := by
  unfold natThen at h1 h2 ⊢
  by_cases hxy : x = y
  · rw [if_pos hxy] at h1
    by_cases hyz : y = z
    · rw [if_pos hyz] at h2
      rw [if_pos (hxy.trans hyz)]
      exact h3 h1 h2
    · rw [if_neg hyz] at h2
      rw [if_neg (hxy ▸ hyz), hxy]
      exact h2
  · rw [if_neg hxy] at h1
    by_cases hyz : y = z
    · rw [if_neg (fun h => hxy (h.trans hyz.symm)), ← hyz]
      exact h1
    · rw [if_neg hyz] at h2
      simp only [decide_eq_true_eq] at h1 h2
      by_cases hxz : x = z
      · omega
      · rw [if_neg hxz]
        simp only [decide_eq_true_eq]
        omega

theorem lexThen_antisymm {x y : List Char} {t₁ t₂ : Bool}
    (h1 : lexThen x y t₁ = true) (h2 : lexThen y x t₂ = true) :
    x = y ∧ t₁ = true ∧ t₂ = true := by
  unfold lexThen at h1 h2
  by_cases hxy : x = y
  · rw [if_pos hxy] at h1
    rw [if_pos hxy.symm] at h2
    exact ⟨hxy, h1, h2⟩
  · rw [if_neg hxy] at h1
    rw [if_neg (Ne.symm hxy)] at h2
    exact absurd (lexLe_antisymm h1 h2) hxy

theorem natThen_antisymm {x y : Nat} {t₁ t₂ : Bool}
    (h1 : natThen x y t₁ = true) (h2 : natThen y x t₂ = true) :
    x = y ∧ t₁ = true ∧ t₂ = true := by
  unfold natThen at h1 h2
  by_cases hxy : x = y
  · rw [if_pos hxy] at h1
    rw [if_pos hxy.symm] at h2
    exact ⟨hxy, h1, h2⟩
  · rw [if_neg hxy] at h1
    rw [if_neg (Ne.symm hxy)] at h2
    simp only [decide_eq_true_eq] at h1 h2
    omega

theorem entryLe_total (a b : UnusedEntry) : entryLe a b = true ∨ entryLe b a = true := by
  unfold entryLe
  apply lexThen_total
  apply natThen_total
  apply lexThen_total
  simp only [decide_eq_true_eq]
  exact Nat.le_total _ _

theorem entryLe_trans {a b c : UnusedEntry}
    (hab : entryLe a b = true) (hbc : entryLe b c = true) : entryLe a c = true := by
  unfold entryLe at hab hbc ⊢
  refine lexThen_trans hab hbc fun h1 h2 => ?_
  refine natThen_trans h1 h2 fun h3 h4 => ?_
  refine lexThen_trans h3 h4 fun h5 h6 => ?_
  simp only [decide_eq_true_eq] at h5 h6 ⊢
  omega

theorem entryLe_antisymm {a b : UnusedEntry}
    (hab : entryLe a b = true) (hba : entryLe b a = true) : a = b := by
  unfold entryLe at hab hba
  obtain ⟨hf, hab, hba⟩ := lexThen_antisymm hab hba
  obtain ⟨hl, hab, hba⟩ := natThen_antisymm hab hba
  obtain ⟨hn, hab, hba⟩ := lexThen_antisymm hab hba
  simp only [decide_eq_true_eq] at hab hba
  have hk : a.kind = b.kind := kindIdx_inj (Nat.le_antisymm hab hba)
  cases a; cases b
  simp_all

theorem fileLineRel_of_entryLe {a b : UnusedEntry} (h : entryLe a b = true) :
    fileLineRel a b := by
  unfold entryLe lexThen at h
  unfold fileLineRel
  by_cases h1 : a.file = b.file
  · rw [if_pos h1] at h ⊢
    unfold natThen at h
    by_cases h2 : a.line = b.line
    · omega
    · rw [if_neg h2] at h
      simp only [decide_eq_true_eq] at h
      exact h
  · rw [if_neg h1] at h ⊢
    exact h
theorem usedFlag_iff {cfg : Config} {occs : List Occurrence} {d : Declaration} :
    usedFlag cfg occs d = true ↔
      (∃ o ∈ occs, qualifies d o = true) ∨ d.file ∈ cfg.entryPoints := by
  unfold usedFlag
  simp [List.any_eq_true]

theorem qualifies_intro {d : Declaration} {o : Occurrence} (h1 : o.text = d.name)
    (h2 : ¬(o.file = d.file ∧ o.line = d.line))
    (h3 : ¬(o.file = d.file ∧ o.selfDefault = true)) : qualifies d o = true := by
  unfold qualifies
  simp only [h1, beq_self_eq_true, Bool.true_and, Bool.and_eq_true, Bool.not_eq_true',
    Bool.and_eq_false_iff]
  constructor
  · by_cases hf : o.file = d.file
    · by_cases hl : o.line = d.line
      · exact absurd ⟨hf, hl⟩ h2
      · exact Or.inr (by simpa using hl)
    · exact Or.inl (by simpa using hf)
  · by_cases hf : o.file = d.file
    · by_cases hs : o.selfDefault = true
      · exact absurd ⟨hf, hs⟩ h3
      · exact Or.inr (by simpa using hs)
    · exact Or.inl (by simpa using hf)

theorem mem_classifyAll {cfg : Config} {files : List SourceFile}
    {r : ClassificationResult} :
    r ∈ classifyAll cfg files ↔
      ∃ d ∈ allDecls cfg files, r = ⟨d, usedFlag cfg (allOccs cfg files) d⟩ := by
  unfold classifyAll
  constructor
  · intro h
    obtain ⟨d, hd, he⟩ := List.mem_map.mp h
    exact ⟨d, hd, he.symm⟩
  · rintro ⟨d, hd, rfl⟩
    exact List.mem_map_of_mem _ hd

theorem lineDecls_elim {cfg : Config} {p : List Char} {i : Nat} {ln : List Char}
    {d : Declaration} (h : d ∈ lineDecls cfg p i ln) :
    ∃ s ex, shapeOfLine ln = some (s, ex) ∧
      declFromShape cfg s = some (d.name, d.kind) ∧
      d = ⟨d.name, d.kind, p, i, ex⟩ := by
  unfold lineDecls at h
  split at h
  · simp at h
  · rename_i s ex heq
    split at h
    · simp at h
    · rename_i n k heq2
      simp at h
      subst h
      exact ⟨s, ex, heq, by simpa using heq2, rfl⟩

theorem allDecls_src {cfg : Config} {files : List SourceFile} {d : Declaration}
    (h : d ∈ allDecls cfg files) :
    ∃ f ∈ files, d.file = f.path ∧ ∃ j ln, (fileLines f.text)[j]? = some ln ∧
      d.line = 1 + j ∧ ∃ s ex, shapeOfLine ln = some (s, ex) ∧
      declFromShape cfg s = some (d.name, d.kind) := by
  obtain ⟨f, hf, hd⟩ := List.mem_flatMap.mp h
  unfold fileDecls at hd
  have hd' := mem_of_dedupGo hd
  obtain ⟨j, ln, hg, hld⟩ := extractFrom_src hd'
  obtain ⟨hfile, hline⟩ := mem_lineDecls hld
  obtain ⟨s, ex, hs, hds, _⟩ := lineDecls_elim hld
  exact ⟨f, hf, hfile, j, ln, hg, hline, s, ex, hs, hds⟩

theorem allDecls_kind_enabled {cfg : Config} {files : List SourceFile}
    {d : Declaration} (h : d ∈ allDecls cfg files) : enabledFor cfg d.kind = true := by
  obtain ⟨f, _, _, j, ln, _, _, s, ex, _, hds⟩ := allDecls_src h
  exact declFromShape_enabled hds

theorem mem_allOccs {cfg : Config} {files : List SourceFile} {f : SourceFile}
    {o : Occurrence} (hf : f ∈ files) (h1 : o ∈ rawOccs f)
    (h2 : ∀ d ∈ fileDecls cfg f, ¬(d.file = o.file ∧ d.line = o.line ∧ d.name = o.text)) :
    o ∈ allOccs cfg files := by
  apply List.mem_flatMap.mpr
  refine ⟨f, hf, ?_⟩
  unfold fileOccs
  apply List.mem_filter.mpr
  refine ⟨h1, ?_⟩
  simp only [isDefSite, Bool.not_eq_true', List.any_eq_false]
  intro d hd
  have := h2 d hd
  simp only [Bool.and_eq_true, beq_iff_eq]
  intro hc
  exact this ⟨hc.1.1, hc.1.2, hc.2⟩

theorem allDecls_perm (cfg : Config) {f1 f2 : List SourceFile} (h : f1.Perm f2) :
    (allDecls cfg f1).Perm (allDecls cfg f2) :=
  List.Perm.flatMap_right _ h

theorem allOccs_perm (cfg : Config) {f1 f2 : List SourceFile} (h : f1.Perm f2) :
    (allOccs cfg f1).Perm (allOccs cfg f2) :=
  List.Perm.flatMap_right _ h

theorem usedFlag_perm (cfg : Config) {f1 f2 : List SourceFile} (h : f1.Perm f2)
    (d : Declaration) :
    usedFlag cfg (allOccs cfg f1) d = usedFlag cfg (allOccs cfg f2) d := by
  unfold usedFlag
  rw [perm_any (allOccs_perm cfg h) (qualifies d)]

theorem classifyAll_perm (cfg : Config) {f1 f2 : List SourceFile} (h : f1.Perm f2) :
    (classifyAll cfg f1).Perm (classifyAll cfg f2) := by
  unfold classifyAll
  have hfun : (fun d => (⟨d, usedFlag cfg (allOccs cfg f1) d⟩ : ClassificationResult)) =
      fun d => ⟨d, usedFlag cfg (allOccs cfg f2) d⟩ := by
    funext d
    rw [usedFlag_perm cfg h d]
  rw [hfun]
  exact (allDecls_perm cfg h).map _

theorem runEngine_perm (cfg : Config) {f1 f2 : List SourceFile} (h : f1.Perm f2) :
    runEngine cfg f1 = runEngine cfg f2 := by
  unfold runEngine buildReport
  have hrs := classifyAll_perm cfg h
  have hcounts : ∀ k, countsFor k (classifyAll cfg f1) = countsFor k (classifyAll cfg f2) := by
    intro k
    unfold countsFor
    rw [hrs.countP_eq, hrs.countP_eq, hrs.countP_eq]
  have hun : (unusedEntries (classifyAll cfg f1)).Perm (unusedEntries (classifyAll cfg f2)) :=
    hrs.filterMap _
  have hsorteq : List.insertionSort entryRel (unusedEntries (classifyAll cfg f1)) =
      List.insertionSort entryRel (unusedEntries (classifyAll cfg f2)) := by
    haveI : IsTotal UnusedEntry entryRel := ⟨entryLe_total⟩
    haveI : IsTrans UnusedEntry entryRel := ⟨fun a b c => entryLe_trans⟩
    haveI : IsAntisymm UnusedEntry entryRel := ⟨fun a b => entryLe_antisymm⟩
    have s1 : List.Sorted entryRel
        (List.insertionSort entryRel (unusedEntries (classifyAll cfg f1))) :=
      List.sorted_insertionSort _ _
    have s2 : List.Sorted entryRel
        (List.insertionSort entryRel (unusedEntries (classifyAll cfg f2))) :=
      List.sorted_insertionSort _ _
    exact List.eq_of_perm_of_sorted
      ((List.perm_insertionSort _ _).trans (hun.trans (List.perm_insertionSort _ _).symm))
      s1 s2
  rw [hcounts .component, hcounts .typeAlias, hcounts .iface, hcounts .func,
    hcounts .var, hcounts .enum, hsorteq]
theorem extractFrom_append {cfg : Config} {p : List Char} :
    ∀ {i : Nat} (l₁ l₂ : List (List Char)),
      extractFrom cfg p i (l₁ ++ l₂) =
        extractFrom cfg p i l₁ ++ extractFrom cfg p (i + l₁.length) l₂ := by
  intro i l₁
  induction l₁ generalizing i with
  | nil => intro l₂; simp [extractFrom]
  | cons a l₁ ih =>
    intro l₂
    have h2 : i + 1 + l₁.length = i + (a :: l₁).length := by
      simp only [List.length_cons]
      omega
    calc extractFrom cfg p i ((a :: l₁) ++ l₂)
        = lineDecls cfg p i a ++ extractFrom cfg p (i + 1) (l₁ ++ l₂) := rfl
      _ = lineDecls cfg p i a ++
          (extractFrom cfg p (i + 1) l₁ ++ extractFrom cfg p (i + 1 + l₁.length) l₂) := by
          rw [ih]
      _ = (lineDecls cfg p i a ++ extractFrom cfg p (i + 1) l₁) ++
          extractFrom cfg p (i + (a :: l₁).length) l₂ := by
          rw [List.append_assoc, h2]
      _ = extractFrom cfg p i (a :: l₁) ++ extractFrom cfg p (i + (a :: l₁).length) l₂ := rfl

theorem lineDecls_keys (cfg : Config) (p : List Char) (i i' : Nat) (ln : List Char) :
    (lineDecls cfg p i ln).map dKey = (lineDecls cfg p i' ln).map dKey := by
  unfold lineDecls
  cases h : shapeOfLine ln with
  | none => simp only [h]
  | some se =>
    obtain ⟨s, ex⟩ := se
    simp only [h]
    cases h2 : declFromShape cfg s with
    | none => simp only [h2]
    | some nk =>
      obtain ⟨n, k⟩ := nk
      simp only [h2]
      rfl

theorem extractFrom_keys {cfg : Config} {p : List Char} :
    ∀ (i i' : Nat) (ls : List (List Char)),
      (extractFrom cfg p i ls).map dKey = (extractFrom cfg p i' ls).map dKey := by
  intro i i' ls
  induction ls generalizing i i' with
  | nil => rfl
  | cons a ls ih =>
    simp only [extractFrom, List.map_append]
    rw [ih (i + 1) (i' + 1), lineDecls_keys cfg p i i' a]

theorem nameCount_extractFrom {cfg : Config} {p : List Char} (nm : List Char)
    (i i' : Nat) (ls : List (List Char)) :
    nameCount nm (extractFrom cfg p i ls) = nameCount nm (extractFrom cfg p i' ls) := by
  unfold nameCount
  have h1 : (extractFrom cfg p i ls).countP (fun d => d.name == nm) =
      ((extractFrom cfg p i ls).map dKey).countP (fun k => k.1 == nm) := by
    rw [List.countP_map]; rfl
  have h2 : (extractFrom cfg p i' ls).countP (fun d => d.name == nm) =
      ((extractFrom cfg p i' ls).map dKey).countP (fun k => k.1 == nm) := by
    rw [List.countP_map]; rfl
  rw [h1, h2, extractFrom_keys i i' ls]

theorem fileDecls_src {cfg : Config} {f : SourceFile} {d : Declaration}
    (h : d ∈ fileDecls cfg f) :
    d.file = f.path ∧ ∃ j ln, (fileLines f.text)[j]? = some ln ∧ d.line = 1 + j ∧
      ∃ s ex, shapeOfLine ln = some (s, ex) ∧
        declFromShape cfg s = some (d.name, d.kind) := by
  unfold fileDecls at h
  have h' := mem_of_dedupGo h
  obtain ⟨j, ln, hg, hld⟩ := extractFrom_src h'
  obtain ⟨hfile, hline⟩ := mem_lineDecls hld
  obtain ⟨s, ex, hs, hds, _⟩ := lineDecls_elim hld
  exact ⟨hfile, j, ln, hg, hline, s, ex, hs, hds⟩

theorem countsFor_zero {k : DeclKind} {rs : List ClassificationResult}
    (h : ∀ r ∈ rs, r.decl.kind ≠ k) : countsFor k rs = ⟨0, 0, 0⟩ := by
  unfold countsFor
  have h1 : rs.countP (fun r => r.decl.kind == k) = 0 :=
    List.countP_eq_zero.mpr fun r hr => by simp [h r hr]
  have h2 : rs.countP (fun r => r.decl.kind == k && r.used) = 0 :=
    List.countP_eq_zero.mpr fun r hr => by simp [h r hr]
  have h3 : rs.countP (fun r => r.decl.kind == k && !r.used) = 0 :=
    List.countP_eq_zero.mpr fun r hr => by simp [h r hr]
  rw [h1, h2, h3]

theorem reportRow_runEngine (cfg : Config) (files : List SourceFile) (k : DeclKind) :
    reportRow (runEngine cfg files) k = countsFor k (classifyAll cfg files) := by
  cases k <;> rfl

theorem unusedList_sorted (cfg : Config) (files : List SourceFile) :
    (runEngine cfg files).unusedList.Pairwise fileLineRel := by
  haveI : IsTotal UnusedEntry entryRel := ⟨entryLe_total⟩
  haveI : IsTrans UnusedEntry entryRel := ⟨fun a b c => entryLe_trans⟩
  have hs : List.Sorted entryRel
      (List.insertionSort entryRel (unusedEntries (classifyAll cfg files))) :=
    List.sorted_insertionSort _ _
  exact hs.imp fileLineRel_of_entryLe

theorem warningsOf_eq (inputs : List (List Char × Option (List Char))) :
    warningsOf inputs = (inputs.filter (fun q => q.2.isNone)).map Prod.fst := by
  induction inputs with
  | nil => rfl
  | cons a l ih =>
    obtain ⟨pa, ca⟩ := a
    unfold warningsOf at ih ⊢
    cases ca <;> simp_all [List.filter_cons]

theorem readOk_all_failed {inputs : List (List Char × Option (List Char))}
    (h : ∀ p ∈ inputs, p.2 = none) : readOk inputs = [] := by
  induction inputs with
  | nil => rfl
  | cons a l ih =>
    unfold readOk at ih ⊢
    have ha := h a (List.mem_cons_self _ _)
    simp [List.filterMap_cons, ha, ih fun p hp => h p (List.mem_cons_of_mem _ hp)]

theorem runEngine_nil (cfg : Config) : runEngine cfg [] = emptyReport := rfl
set_option maxRecDepth 1000000

/-- Claim C1, amended: for every Declaration `d` of a run and every recorded
Occurrence `o` whose identifier text equals `d.name`, if `o` is outside
`d`'s own definition line and is not a bare `export default d.name;`
self-reference in `d`'s own defining file, then the ClassificationResult for
`d` has `used = true`.  (The original claim, without the self-reference
exception, is refuted by `c1_counterexample`.) -/
theorem c1_no_false_unused_amended (cfg : Config) (files : List SourceFile)
    (d : Declaration) (o : Occurrence) (hd : d ∈ allDecls cfg files)
    (ho : o ∈ allOccs cfg files) (h1 : o.text = d.name)
    (h2 : ¬(o.file = d.file ∧ o.line = d.line))
    (h3 : ¬(o.file = d.file ∧ o.selfDefault = true)) :
    (⟨d, true⟩ : ClassificationResult) ∈ classifyAll cfg files := by
  have hq := qualifies_intro h1 h2 h3
  have hu : usedFlag cfg (allOccs cfg files) d = true :=
    usedFlag_iff.mpr (Or.inl ⟨o, ho, hq⟩)
  have hm := List.mem_map_of_mem
    (fun d => (⟨d, usedFlag cfg (allOccs cfg files) d⟩ : ClassificationResult)) hd
  have hm' : (⟨d, usedFlag cfg (allOccs cfg files) d⟩ : ClassificationResult) ∈
      classifyAll cfg files := hm
  rw [hu] at hm'
  exact hm'

/-- Claim C1, witness: in the canonical corpus, `USED_CONSTANT` (declared in
`utils/api.ts` line 21) has the named-import Occurrence on line 3 of
`App.tsx`, so it is classified used. -/
theorem c1_witness :
    usedConstDecl ∈ allDecls allOn corpusFiles ∧
    usedConstOcc ∈ allOccs allOn corpusFiles ∧
    (⟨usedConstDecl, true⟩ : ClassificationResult) ∈ classifyAll allOn corpusFiles := by
  refine ⟨by decide, by decide, ?_⟩
  exact c1_no_false_unused_amended allOn corpusFiles usedConstDecl usedConstOcc
    (by decide) (by decide) (by decide) (by decide) (by decide)

/-- Claim C1, counterexample: the claim as stated is false on the canonical
corpus.  `spinner.tsx` line 19 (`export default Spinner;`) holds an
Occurrence whose identifier text equals `Spinner` outside the Declaration's
own definition line (line 8), yet the ClassificationResult for `Spinner` has
`used = false`. -/
theorem c1_counterexample :
    spinnerDecl ∈ allDecls allOn corpusFiles ∧
    spinnerOcc ∈ allOccs allOn corpusFiles ∧
    spinnerOcc.text = spinnerDecl.name ∧
    ¬(spinnerOcc.file = spinnerDecl.file ∧ spinnerOcc.line = spinnerDecl.line) ∧
    (⟨spinnerDecl, false⟩ : ClassificationResult) ∈ classifyAll allOn corpusFiles := by
  exact ⟨by decide, by decide, rfl, by decide, by decide⟩

/-- Claim C2: the Classifier is total over the merged Usage Graph — it
yields exactly one terminal verdict per Declaration, a Declaration is
`used` iff the graph holds a qualifying Occurrence for it or its defining
file is a configured entry point, and with no entry points configured the
verdict is `used` iff a qualifying Occurrence exists. -/
theorem c2_classifier_total_iff (cfg : Config) (files : List SourceFile) :
    (classifyAll cfg files).length = (allDecls cfg files).length ∧
    (∀ d ∈ allDecls cfg files,
      (⟨d, usedFlag cfg (allOccs cfg files) d⟩ : ClassificationResult) ∈
        classifyAll cfg files) ∧
    (∀ r ∈ classifyAll cfg files,
      (r.used = true ↔ (∃ o ∈ allOccs cfg files, qualifies r.decl o = true) ∨
        r.decl.file ∈ cfg.entryPoints)) ∧
    (cfg.entryPoints = [] → ∀ r ∈ classifyAll cfg files,
      (r.used = true ↔ ∃ o ∈ allOccs cfg files, qualifies r.decl o = true)) := by
  refine ⟨by simp [classifyAll], fun d hd => List.mem_map_of_mem _ hd, ?_, ?_⟩
  · intro r hr
    obtain ⟨d, hd, rfl⟩ := mem_classifyAll.mp hr
    exact usedFlag_iff
  · intro hep r hr
    obtain ⟨d, hd, rfl⟩ := mem_classifyAll.mp hr
    constructor
    · intro h
      rcases usedFlag_iff.mp h with h | h
      · exact h
      · rw [hep] at h
        simp at h
    · intro h
      exact usedFlag_iff.mpr (Or.inl h)

/-- Claim C2, witness: on a two-file corpus, the result for the `Foo`
Declaration satisfies the classification iff. -/
theorem c2_witness :
    (⟨⟨"Foo".data, .var, "a.ts".data, 1, true⟩, true⟩ : ClassificationResult) ∈
      classifyAll allOn tinyFiles ∧
    ((⟨⟨"Foo".data, .var, "a.ts".data, 1, true⟩, true⟩ : ClassificationResult).used = true ↔
      (∃ o ∈ allOccs allOn tinyFiles,
        qualifies (⟨"Foo".data, .var, "a.ts".data, 1, true⟩ : Declaration) o = true) ∨
      (⟨"Foo".data, .var, "a.ts".data, 1, true⟩ : Declaration).file ∈ allOn.entryPoints) := by
  refine ⟨by decide, ?_⟩
  exact (c2_classifier_total_iff allOn tinyFiles).2.2.1 _ (by decide)

/-- Claim C3: the Report is a deterministic function of the input file set
and configuration — the merge may commit per-file partial results in any
order (any permutation of the Source Set), and both the extracted
Declaration multiset and the final Report are unchanged, so two runs on
unchanged input give identical Reports regardless of the parallel
schedule. -/
theorem c3_determinism (cfg : Config) (files₁ files₂ : List SourceFile)
    (h : files₁.Perm files₂) :
    (allDecls cfg files₁).Perm (allDecls cfg files₂) ∧
    runEngine cfg files₁ = runEngine cfg files₂ :=
  ⟨allDecls_perm cfg h, runEngine_perm cfg h⟩

/-- Claim C3, witness: committing the two files of a small corpus in either
order yields the same Declarations and the same Report. -/
theorem c3_witness :
    (allDecls allOn [tinyA, tinyB]).Perm (allDecls allOn [tinyB, tinyA]) ∧
    runEngine allOn [tinyA, tinyB] = runEngine allOn [tinyB, tinyA] :=
  c3_determinism allOn [tinyA, tinyB] [tinyB, tinyA] (by decide)

/-- Claim C4: in the canonical corpus the component `Spinner`, defined and
exported on line 8 of its own file `spinner.tsx` and never imported
elsewhere, is classified Unused — even though `spinner.tsx` ends with
`export default Spinner;`, whose `Spinner` token (line 19) is an
identifier occurrence on a line other than the definition line. -/
theorem c4_spinner_unused :
    (⟨spinnerDecl, false⟩ : ClassificationResult) ∈ classifyAll allOn corpusFiles ∧
    spinnerDecl.kind = .component ∧ spinnerDecl.exported = true ∧
    spinnerOcc ∈ allOccs allOn corpusFiles ∧ spinnerOcc.text = "Spinner".data ∧
    spinnerOcc.line = 19 ∧ spinnerDecl.line = 8 := by
  exact ⟨by decide, rfl, rfl, by decide, rfl, rfl, rfl⟩
/-- Claim C5: disabling a detection category yields zero Declarations of
that kind for every corpus, and the Report's row for that category is
`{total := 0, used := 0, unused := 0}`. -/
theorem c5_category_gating (cfg : Config) (files : List SourceFile) (k : DeclKind)
    (h : enabledFor cfg k = false) :
    (∀ d ∈ allDecls cfg files, d.kind ≠ k) ∧
    reportRow (runEngine cfg files) k = ⟨0, 0, 0⟩ := by
  have hk : ∀ d ∈ allDecls cfg files, d.kind ≠ k := by
    intro d hd he
    have h2 := allDecls_kind_enabled hd
    rw [he, h] at h2
    exact Bool.false_ne_true h2
  refine ⟨hk, ?_⟩
  rw [reportRow_runEngine]
  apply countsFor_zero
  intro r hr
  obtain ⟨d, hd, rfl⟩ := mem_classifyAll.mp hr
  exact hk d hd

/-- Claim C5, witness: the canonical corpus contains two enum Declarations
under the all-enabled configuration, yet the run with
`detection_types.enums` disabled reports `enums = {0, 0, 0}`. -/
theorem c5_witness :
    enabledFor noEnums .enum = false ∧
    (allDecls allOn corpusFiles).countP (fun d => d.kind == .enum) = 2 ∧
    reportRow (runEngine noEnums corpusFiles) .enum = ⟨0, 0, 0⟩ :=
  ⟨rfl, by decide, (c5_category_gating noEnums corpusFiles .enum rfl).2⟩

/-- Claim C6: a bare re-export `export { Name }` matches no Extractor rule
(it is never a Declaration), inserting such a line anywhere in a file
leaves the number of Declarations of every name unchanged, the Scanner
records the re-exported name as an ordinary Occurrence, and each file's
Declaration arena holds at most one Declaration per `(name, kind)` key
(hence at most one per `(file, name, kind)`). -/
theorem c6_reexport_idempotent (cfg : Config) (p : List Char) (f : SourceFile)
    (nm mName : List Char) (i : Nat) (l₁ l₂ : List (List Char)) :
    shapeOfLine (reExportLine nm) = none ∧
    nameCount mName (extractFrom cfg p i (l₁ ++ reExportLine nm :: l₂)) =
      nameCount mName (extractFrom cfg p i (l₁ ++ l₂)) ∧
    (scanLinesGo "index.ts".data 1 .norm [reExportLine "Spinner".data]).map
        (fun o => o.text) = ["export".data, "Spinner".data] ∧
    (∀ d ∈ fileDecls cfg f, d.file = f.path) ∧
    (fileDecls cfg f).Pairwise (fun d e => dKey d ≠ dKey e) := by
  refine ⟨rfl, ?_, by decide, fun d hd => (fileDecls_src hd).1, dedupGo_pairwise⟩
  rw [extractFrom_append l₁ (reExportLine nm :: l₂), extractFrom_append l₁ l₂]
  unfold nameCount
  rw [List.countP_append, List.countP_append]
  congr 1
  have hstep : extractFrom cfg p (i + l₁.length) (reExportLine nm :: l₂) =
      lineDecls cfg p (i + l₁.length) (reExportLine nm) ++
        extractFrom cfg p (i + l₁.length + 1) l₂ := rfl
  have hs : shapeOfLine (reExportLine nm) = none := rfl
  have hline : lineDecls cfg p (i + l₁.length) (reExportLine nm) = [] := by
    unfold lineDecls
    rw [hs]
  rw [hstep, hline, List.nil_append]
  have hcount : nameCount mName (extractFrom cfg p (i + l₁.length + 1) l₂) =
      nameCount mName (extractFrom cfg p (i + l₁.length) l₂) :=
    nameCount_extractFrom mName _ _ l₂
  unfold nameCount at hcount
  exact hcount

/-- Claim C7: the Reference Scanner records no Occurrence for identifier
text inside string literals (the `'Button clicked!'` string on line 7 of
`Home.tsx` contributes only `console` and `log`) or inside `//` and
`/* ... */` comments, and a Declaration with no qualifying Occurrence in
the whole corpus whose file is not an entry point is never classified
used. -/
theorem c7_scanner_exclusions (cfg : Config) (files : List SourceFile) :
    lineTokens homeFile 7 = ["console".data, "log".data] ∧
    lineTokens commentSnip 1 = [] ∧
    lineTokens commentSnip 3 = [] ∧
    lineTokens commentSnip 4 = [] ∧
    lineTokens commentSnip 2 = ["const".data, "x".data] ∧
    (∀ r ∈ classifyAll cfg files,
      (∀ o ∈ allOccs cfg files, qualifies r.decl o = false) →
      r.decl.file ∉ cfg.entryPoints → r.used = false) := by
  refine ⟨by decide, by decide, by decide, by decide, by decide, ?_⟩
  intro r hr hq hep
  obtain ⟨d, hd, rfl⟩ := mem_classifyAll.mp hr
  show usedFlag cfg (allOccs cfg files) d = false
  cases hu : usedFlag cfg (allOccs cfg files) d with
  | false => rfl
  | true =>
    exfalso
    rcases usedFlag_iff.mp hu with ⟨o, ho, hq'⟩ | hmem
    · rw [hq o ho] at hq'
      exact Bool.false_ne_true hq'
    · exact hep hmem

/-- Claim C7, witness: `Bar`, declared in `c.ts` and mentioned elsewhere
only inside a comment and a string literal, is classified unused. -/
theorem c7_witness :
    (⟨⟨"Bar".data, .var, "c.ts".data, 1, true⟩, false⟩ : ClassificationResult) ∈
      classifyAll allOn tinyCD ∧
    (⟨⟨"Bar".data, .var, "c.ts".data, 1, true⟩, false⟩ : ClassificationResult).used
      = false := by
  refine ⟨by decide, ?_⟩
  exact (c7_scanner_exclusions allOn tinyCD).2.2.2.2.2 _ (by decide) (by decide) (by decide)

/-- Claim C8: a per-file read failure is recovered locally — the Report is
computed from exactly the successfully read files, each failed file
contributes exactly one recorded warning (in corpus order, never retried),
and a run in which every read fails still completes with the all-zero
Report. -/
theorem c8_read_failures (cfg : Config)
    (inputs : List (List Char × Option (List Char))) :
    (runFull cfg inputs).1 = runEngine cfg (readOk inputs) ∧
    (runFull cfg inputs).2 = (inputs.filter (fun q => q.2.isNone)).map Prod.fst ∧
    ((∀ p ∈ inputs, p.2 = none) →
      runFull cfg inputs = (emptyReport, inputs.map Prod.fst)) := by
  refine ⟨rfl, warningsOf_eq inputs, ?_⟩
  intro h
  unfold runFull
  rw [readOk_all_failed h, runEngine_nil, warningsOf_eq inputs,
    List.filter_eq_self.mpr fun p hp => by simp [h p hp]]

/-- Claim C8, witness: a corpus whose single file fails to read yields the
all-zero Report and one warning. -/
theorem c8_witness :
    runFull allOn [("a.ts".data, none)] = (emptyReport, ["a.ts".data]) :=
  (c8_read_failures allOn [("a.ts".data, none)]).2.2 (by decide)

/-- Claim C9: every Report row satisfies `total = used + unused`, and the
unused list is ordered by file path first and then by line number. -/
theorem c9_aggregator (cfg : Config) (files : List SourceFile) :
    (∀ k, (reportRow (runEngine cfg files) k).total =
      (reportRow (runEngine cfg files) k).used +
        (reportRow (runEngine cfg files) k).unused) ∧
    (runEngine cfg files).unusedList.Pairwise fileLineRel := by
  refine ⟨?_, unusedList_sorted cfg files⟩
  intro k
  rw [reportRow_runEngine]
  unfold countsFor
  exact countP_split _ _ _
/-- Claim C10: in the canonical corpus the interface `Post` (declared in
`types/api.ts` line 16) has qualifying Occurrences in `utils/api.ts` (the
named import on line 1 and the `Promise<Post[]>` return annotation), so
every run with interface detection enabled classifies `Post` as used —
contrary to the example documentation's expected-unused list. -/
theorem c10_post_used (cfg : Config) (h : cfg.interfaces = true) :
    ∃ r ∈ classifyAll cfg corpusFiles, r.decl.name = "Post".data ∧
      r.decl.kind = .iface ∧ r.decl.file = "src/types/api.ts".data ∧
      r.used = true := by
  have hshape : shapeOfLine "export interface Post \x7b".data =
      some (.ifaceDecl "Post".data, true) := by decide
  have hdfs : declFromShape cfg (.ifaceDecl "Post".data) =
      some ("Post".data, .iface) := by
    simp [declFromShape, h]
  have hget : (fileLines typesFile.text)[15]? =
      some "export interface Post \x7b".data := by decide
  have hraw : postDeclRaw ∈ extractFrom cfg typesFile.path 1 (fileLines typesFile.text) :=
    mem_extractFrom_of_get (i := 1) (j := 15) hget
      (lineDecls_intro (p := typesFile.path) (i := 16) hshape hdfs)
  obtain ⟨d', hd'm, hd'k⟩ := @dedupGo_key_complete [] _ _ hraw (by simp)
  have hd'mem : d' ∈ fileDecls cfg typesFile := hd'm
  have hname : d'.name = "Post".data := congrArg Prod.fst hd'k
  have hkind : d'.kind = .iface := congrArg Prod.snd hd'k
  have hfile : d'.file = typesFile.path := (fileDecls_src hd'mem).1
  have hall : d' ∈ allDecls cfg corpusFiles :=
    List.mem_flatMap.mpr ⟨typesFile, by
      exact List.mem_cons_of_mem _ (List.mem_cons_of_mem _ (List.mem_cons_self _ _)),
      hd'mem⟩
  have hocc : postOcc ∈ allOccs cfg corpusFiles := by
    apply mem_allOccs (f := utilsFile) (List.mem_cons_self _ _) (by decide)
    intro d hd hc
    obtain ⟨hf, j, ln, hg, hl, s, ex, hs2, _⟩ := fileDecls_src hd
    have hl1 : d.line = 1 := hc.2.1
    have hj : j = 0 := by omega
    subst hj
    have hline1 : (fileLines utilsFile.text)[0]? =
        some "import \x7b User, Post, Status \x7d from \x27../types/api\x27;".data := by
      decide
    rw [hline1] at hg
    have hln := Option.some.inj hg
    rw [← hln] at hs2
    have hnone : shapeOfLine
        "import \x7b User, Post, Status \x7d from \x27../types/api\x27;".data = none := by
      decide
    rw [hnone] at hs2
    exact Option.noConfusion hs2
  have hq : qualifies d' postOcc = true := by
    apply qualifies_intro
    · rw [hname]
      rfl
    · rw [hfile]
      intro hc
      exact absurd hc.1 (by decide)
    · rw [hfile]
      intro hc
      exact absurd hc.1 (by decide)
  have hu : usedFlag cfg (allOccs cfg corpusFiles) d' = true :=
    usedFlag_iff.mpr (Or.inl ⟨postOcc, hocc, hq⟩)
  refine ⟨⟨d', usedFlag cfg (allOccs cfg corpusFiles) d'⟩,
    mem_classifyAll.mpr ⟨d', hall, rfl⟩, hname, hkind, ?_, hu⟩
  rw [hfile]
  rfl

/-- Claim C10, witness: under the all-enabled configuration the run over
the canonical corpus contains a used `Post` interface result. -/
theorem c10_witness :
    ∃ r ∈ classifyAll allOn corpusFiles, r.decl.name = "Post".data ∧
      r.decl.kind = .iface ∧ r.decl.file = "src/types/api.ts".data ∧
      r.used = true :=
  c10_post_used allOn rfl
